import Mathlib

/-!
# ThreadPool-C: a shallow embedding of `tpool.c`

The development follows `src/tpool.c` top to bottom: the two hash functions,
the worker loop, `thread_pool_init`, `thread_pool_hash` and
`thread_pool_shutdown`.

Modelling conventions.

* A `FILE *` stream is the list of bytes that remain to be read from it; `fgetc`
  returns the next byte as a value `0..255`, or `EOF` once the list is empty.
* Machine integers are `Nat`/`Int` with the C conversions written out:
  `char` is the signed 8-bit type of the x86-64 Linux ABI the program is written
  for (pthreads, `dirent.d_type`), `uint32_t`/`uint64_t` arithmetic is taken
  modulo `2^32`/`2^64`.
* A pointer field is an `Option` (`none` is `NULL`).
* The per-worker mutex is used by the program as a binary signal: the dispatcher
  unlocks it to wake the worker, the worker locks it at the top of every loop
  iteration and never unlocks it.  It is modelled by the Boolean `lock`
  (`true` = held, a `pthread_mutex_lock` on it blocks).
* A worker only touches its own slot, and the dispatcher touches a slot only
  before it unlocks the mutex and after it has seen `RESULT`.  The worker's
  loop iteration is therefore run at the point where the dispatcher waits for it.
* The file system (`opendir`, `fopen`) is an explicit parameter.
* `dirent.d_name` is an address inside the buffer of the directory stream, and
  `Thread.file_name` is such an address.  Every `readdir` call comes with what
  the buffer holds once it has returned, so a name kept as a pointer is read
  back from the buffer as it stands when it is read, not when it was stored.
-/

namespace TPool

/-! ## Byte streams -/

/-- One byte of a file, a value `0..255`. -/
abbrev Byte := Fin 256

/-- An open `FILE *` stream: the bytes not yet read. -/
abbrev FILE := List Byte

/-- The `EOF` constant of `<stdio.h>`. -/
def EOF : Int := -1

/-- Conversion of an `int` to `char` (signed, 8 bits). -/
def toChar (v : Int) : Int :=
  let m := v % 256
  if 128 ≤ m then m - 256 else m

/-- Conversion of an `int` to `uint32_t`. -/
def toUInt32 (v : Int) : Nat := (v % (2 ^ 32 : Int)).toNat

/-- Conversion of an `int` to `uint64_t`. -/
def toUInt64 (v : Int) : Nat := (v % (2 ^ 64 : Int)).toNat

/-! ## `hash32` and `hash64` (tpool.c, lines 40-60) -/

/-- The `while` loop of `hash32`.  The stream `[]` is the case where `fgetc`
returns `EOF`: `byte = (char)EOF = -1` equals `EOF` and the loop exits.
Otherwise `fgetc` returns `b`, which is first stored in `char byte`, compared
with `EOF`, and (promoted to `int`, converted to `uint32_t`) XOR-ed into
the digest.  (With an unsigned `char` the test `byte != EOF` could never fail;
that ABI is not modelled.) -/
def hash32Loop : FILE → Nat → Nat
  | [], digest => digest
  | b :: fl, digest =>
    let byte : Int := toChar (b.val : Int)
    if byte ≠ EOF then
      hash32Loop fl (((digest ^^^ toUInt32 byte) * 16777619) % 2 ^ 32)
    else digest

/-- The function `uint32_t hash32(FILE *fl)`. -/
def hash32 (fl : FILE) : Nat := hash32Loop fl 2166136261

/-- The `while` loop of `hash64`; here `byte` is an `int`, so the value
`fgetc` returns is compared with `EOF` unchanged. -/
def hash64Loop : FILE → Nat → Nat
  | [], digest => digest
  | b :: fl, digest =>
    let byte : Int := (b.val : Int)
    if byte ≠ EOF then
      hash64Loop fl (((digest ^^^ toUInt64 byte) * 1099511628211) % 2 ^ 64)
    else digest

/-- The function `uint64_t hash64(FILE *fl)`. -/
def hash64 (fl : FILE) : Nat := hash64Loop fl 14695981039346656037

/-- FNV-1a, 32 bits, as the specification words it: start from `2166136261`;
for each byte, XOR the accumulator with the byte and multiply by `16777619`
modulo `2^32`. -/
def fnv1a32 (bytes : List Byte) : Nat :=
  bytes.foldl (fun acc b => ((acc ^^^ b.val) * 16777619) % 2 ^ 32) 2166136261

/-- FNV-1a, 64 bits, as the specification words it: start from
`14695981039346656037`; for each byte, XOR the accumulator with the byte and
multiply by `1099511628211` modulo `2^64`. -/
def fnv1a64 (bytes : List Byte) : Nat :=
  bytes.foldl (fun acc b => ((acc ^^^ b.val) * 1099511628211) % 2 ^ 64)
    14695981039346656037

/-! ## Data model (tpool.c, lines 16-37) -/

/-- The `WorkCommand` enumeration; `WORK` is its zero value. -/
inductive WorkCommand where
  | WORK
  | RESULT
  | DIE
  deriving DecidableEq

/-- The `Thread` structure, one worker slot.  `tid` is not represented;
`file_name` is a pointer, an address in the buffer of a directory stream;
`lock` is the state of the slot's mutex (`true` = held). -/
structure Thread where
  command : WorkCommand
  hash_value : Nat
  hash_type : Int
  working_file : Option FILE
  file_name : Option Nat
  lock : Bool
  deriving DecidableEq

/-- The `ThreadPool` structure. -/
structure ThreadPool where
  workers : List Thread
  num_threads : Int
  deriving DecidableEq

/-! ## The worker (tpool.c, lines 63-93) -/

/-- How one iteration of the worker's `for (;;)` loop ends. -/
inductive Step where
  /-- `pthread_mutex_lock` does not return: the mutex is held. -/
  | blocked
  /-- `break`: the thread function returns. -/
  | exited (t : Thread)
  /-- The iteration is over and control is back at the top of the loop. -/
  | looped (t : Thread)
  /-- `fgetc` was called on a `NULL` stream. -/
  | fault
  deriving DecidableEq

/-- The statement `if (t->hash_type == 32) { ... }` of the worker. -/
def work32 (t : Thread) : Option Thread :=
  if t.hash_type = 32 then
    match t.working_file with
    | none => none
    | some fl => some { t with hash_value := hash32 fl, command := .RESULT }
  else some t

/-- The statement `if (t->hash_type == 64) { ... }` of the worker. -/
def work64 (t : Thread) : Option Thread :=
  if t.hash_type = 64 then
    match t.working_file with
    | none => none
    | some fl => some { t with hash_value := hash64 fl, command := .RESULT }
  else some t

/-- One iteration of the `for (;;)` loop of `worker`: take the mutex, then
leave on `DIE`, hash on `WORK`, and do nothing on `RESULT`. -/
def worker_step (t : Thread) : Step :=
  if t.lock then .blocked
  else
    let t := { t with lock := true }
    if t.command = .DIE then .exited t
    else if t.command = .WORK then
      match (work32 t).bind work64 with
      | none => .fault
      | some t => .looped t
    else .looped t

/-! ## `thread_pool_init` (tpool.c, lines 96-118) -/

/-- A `Thread` as `calloc` returns it: every field zero. -/
def callocThread : Thread :=
  { command := .WORK, hash_value := 0, hash_type := 0, working_file := none,
    file_name := none, lock := false }

/-- Apply `f` to `workers[i]`.  An index beyond the array, which the program
never uses on a pool made by `thread_pool_init`, leaves the list as it is. -/
def modifyAt (f : Thread → Thread) : List Thread → Nat → List Thread
  | [], _ => []
  | t :: ts, 0 => f t :: ts
  | t :: ts, i + 1 => t :: modifyAt f ts i

/-- The `for` loop of `thread_pool_init`, from index `i` with `k` iterations
to go: the mutex of `workers[i]` is initialised and locked by the caller; the
thread created on it blocks at once on that mutex. -/
def initLoop : Nat → Nat → List Thread → List Thread
  | _, 0, workers => workers
  | i, k + 1, workers =>
    initLoop (i + 1) k (modifyAt (fun t => { t with lock := true }) workers i)

/-- The function `void *thread_pool_init(int num_threads)`: `NULL` outside
`[1, 32]`, else a pool of `num_threads` zeroed workers, each blocked on its mutex. -/
def thread_pool_init (num_threads : Int) : Option ThreadPool :=
  if num_threads < 1 ∨ num_threads > 32 then none
  else
    some { workers := initLoop 0 num_threads.toNat
                        (List.replicate num_threads.toNat callocThread),
           num_threads := num_threads }

/-! ## `thread_pool_hash` (tpool.c, lines 121-213) -/

/-- What can be read in the buffer of a directory stream: the C string found
at each address. -/
abbrev NameBuffer := Nat → String

/-- A directory entry, `struct dirent`, as `readdir` returns it.  `d_name` is
the address of the entry's `char d_name[]`, which lies in the buffer of the
directory stream. -/
structure dirent where
  d_name : Nat
  d_type : Nat
  deriving DecidableEq

/-- The `d_type` of a regular file. -/
def DT_REG : Nat := 8

/-- One `readdir` call that returns an entry: the entry, and what the buffer of
the stream holds once the call has returned.  The name of the entry is
`buffer dent.d_name`; what earlier calls pointed to may have been overwritten. -/
structure ReadDir where
  dent : dirent
  buffer : NameBuffer

/-- An open directory stream, `DIR *`: what its buffer holds now, and the
`readdir` calls to come.  After the last of them `readdir` returns `NULL` and
writes nothing. -/
structure DIR where
  buffer : NameBuffer
  pending : List ReadDir

/-- The file system the program runs against: what `opendir` yields for a
directory path (`none`: it fails) and what `fopen(path, "r")` yields. -/
structure FileSystem where
  opendir : String → Option DIR
  fopen : String → Option FILE

/-- One `printf` of the collect phase.  `slot` is the index `i` of the worker
slot the line is read from, `hash_size` selects the format, `file_name` is the
string found at the slot's `file_name` pointer when the line is printed. -/
structure Line where
  slot : Nat
  hash_size : Int
  hash_value : Nat
  directory : String
  file_name : Option String
  deriving DecidableEq

/-- One execution of the body of the `while (1)` loop: the slots assigned in
its first `for` loop, in order, and the lines printed by its second. -/
structure Batch where
  assigned : List (Nat × dirent)
  emitted : List Line
  deriving DecidableEq

/-- Lines 160-175: what the dispatcher writes into `workers[i]` for the regular
entry that the `readdir` call `r` has just returned, ending with the
`pthread_mutex_unlock`.  The path given to `fopen` is built from the name as
the buffer holds it now.  A failed `fopen` is reported with `perror` and the
stores go on all the same.  `file_name` receives the pointer `dent->d_name`,
not a copy of the name. -/
def assign (fs : FileSystem) (directory : String) (hash_size : Int) (r : ReadDir)
    (t : Thread) : Thread :=
  { t with
    working_file := fs.fopen (directory ++ "/" ++ r.buffer r.dent.d_name)
    hash_type := hash_size
    file_name := some r.dent.d_name
    command := .WORK
    lock := false }

/-- State at the end of the assign loop. -/
structure Assigned where
  workers : List Thread
  direct : DIR
  queued : Nat
  log : List (Nat × dirent)

/-- The first `for` loop (lines 151-184), at index `i`, with the `readdir`
calls to come and the present contents of the stream's buffer.  The list `[]`
is the case where `readdir` returns `NULL`, now and for every later `i`:
nothing is touched until `i` reaches `num_threads`.  A non-regular entry is
followed by `i--` and the loop's `i++`, so the same `i` reads the next entry.
Every call that returns an entry leaves the buffer as that call says. -/
def assignLoop (fs : FileSystem) (directory : String) (hash_size : Int)
    (num_threads : Int) : Nat → List ReadDir → NameBuffer → List Thread → Nat → Assigned
  | _, [], buffer, workers, queued => ⟨workers, ⟨buffer, []⟩, queued, []⟩
  | i, r :: pending, buffer, workers, queued =>
    if (i : Int) < num_threads then
      if r.dent.d_type = DT_REG then
        let a := assignLoop fs directory hash_size num_threads (i + 1) pending r.buffer
          (modifyAt (assign fs directory hash_size r) workers i) (queued + 1)
        { a with log := (i, r.dent) :: a.log }
      else assignLoop fs directory hash_size num_threads i pending r.buffer workers queued
    else ⟨workers, ⟨buffer, r :: pending⟩, queued, []⟩

/-- The dispatcher's `while (TP->workers[i].command != RESULT) nanosleep(...)`.
Meanwhile the worker of the slot runs as far as it can: at most one iteration,
since it then needs its mutex again.  If the slot does not hold `RESULT` after
that, the wait never ends (`none`). -/
def await (t : Thread) : Option Thread :=
  match worker_step t with
  | .blocked => if t.command = .RESULT then some t else none
  | .looped t1 => if t1.command = .RESULT then some t1 else none
  | .exited t1 => if t1.command = .RESULT then some t1 else none
  | .fault => none

/-- What the collect phase prints for slot `i`: the two `if`s on `hash_size`,
each with its `printf` of the slot's `hash_value` and of the string that the
slot's `file_name` points to in the buffer as it stands now. -/
def emit (directory : String) (hash_size : Int) (buffer : NameBuffer) (i : Nat)
    (t : Thread) : List Line :=
  (if hash_size = 32 then
    [⟨i, 32, t.hash_value, directory, t.file_name.map buffer⟩] else []) ++
  (if hash_size = 64 then
    [⟨i, 64, t.hash_value, directory, t.file_name.map buffer⟩] else [])

/-- The second `for` loop (lines 186-202), at index `i` with `k = queued - i`
iterations to go; `buffer` is what the stream's buffer holds during the loop,
which calls no `readdir`.  An index beyond the array has no slot to read
(`none`).  The `fclose` of the stream leaves every modelled field as it is. -/
def collectLoop (directory : String) (hash_size : Int) (buffer : NameBuffer) :
    Nat → Nat → List Thread → Option (List Line × List Thread)
  | _, 0, workers => some ([], workers)
  | i, k + 1, workers =>
    match workers[i]? with
    | none => none
    | some t =>
      match await t with
      | none => none
      | some t1 =>
        match collectLoop directory hash_size buffer (i + 1) k (workers.set i t1) with
        | none => none
        | some (out, ws) => some (emit directory hash_size buffer i t1 ++ out, ws)

/-- The `while (1)` loop (lines 147-209); `fuel` bounds the number of times
its body is run.  The result lists one `Batch` per execution of the body. -/
def dispatchLoop (fs : FileSystem) (directory : String) (hash_size : Int)
    (num_threads : Int) : Nat → DIR → List Thread → Option (List Batch × List Thread)
  | 0, _, _ => none
  | fuel + 1, direct, workers =>
    let a := assignLoop fs directory hash_size num_threads 0 direct.pending direct.buffer
      workers 0
    match collectLoop directory hash_size a.direct.buffer 0 a.queued a.workers with
    | none => none
    | some (out, ws) =>
      if (a.queued : Int) ≠ num_threads then some ([⟨a.log, out⟩], ws)
      else
        match dispatchLoop fs directory hash_size num_threads fuel a.direct ws with
        | none => none
        | some (bs, ws1) => some (⟨a.log, out⟩ :: bs, ws1)

/-- What a call of `thread_pool_hash` that returns leaves behind: the return
value, the executions of the loop body, and the pool. -/
structure HashReturn where
  ret : Bool
  batches : List Batch
  handle : Option ThreadPool
  deriving DecidableEq

/-- The function
`bool thread_pool_hash(void *handle, const char *directory, int hash_size)`;
`none` when the call does not return. -/
def thread_pool_hash (fuel : Nat) (fs : FileSystem) (handle : Option ThreadPool)
    (directory : String) (hash_size : Int) : Option HashReturn :=
  if hash_size ≠ 32 ∧ hash_size ≠ 64 then some ⟨false, [], handle⟩
  else
    match handle with
    | none => some ⟨false, [], none⟩
    | some TP =>
      match fs.opendir directory with
      | none => some ⟨false, [], some TP⟩
      | some direct =>
        match dispatchLoop fs directory hash_size TP.num_threads fuel direct TP.workers with
        | none => none
        | some (bs, ws) => some ⟨true, bs, some { TP with workers := ws }⟩

/-! ## `thread_pool_shutdown` (tpool.c, lines 217-235) -/

/-- The `for` loop of `thread_pool_shutdown`, at index `i` with `k` iterations
to go: store `DIE`, unlock, and `pthread_join`, which returns once the worker
has left its loop. -/
def shutdownLoop : Nat → Nat → List Thread → Option (List Thread)
  | _, 0, workers => some workers
  | i, k + 1, workers =>
    match workers[i]? with
    | none => none
    | some t =>
      match worker_step { t with command := .DIE, lock := false } with
      | .exited t1 => shutdownLoop (i + 1) k (workers.set i t1)
      | _ => none

/-- The function `void thread_pool_shutdown(void *handle)`.  The result is the pool as it
stands when the function releases it (`some none` for the `NULL` handle, on
which the function returns at once); `none` when the call does not return. -/
def thread_pool_shutdown (handle : Option ThreadPool) : Option (Option ThreadPool) :=
  match handle with
  | none => some none
  | some TP =>
    match shutdownLoop 0 TP.num_threads.toNat TP.workers with
    | none => none
    | some ws => some (some { TP with workers := ws })

/-! ## Vocabulary for the statements

The definitions below are not part of the program; they name what the
statements about `thread_pool_hash` talk about. -/

/-- The `readdir` calls that return a regular file, in order. -/
def regular (pending : List ReadDir) : List ReadDir :=
  pending.filter (fun r => r.dent.d_type = DT_REG)

/-- What the worker stores in `hash_value` for a stream at a supported width:
the value of `hash32` for 32, of `hash64` for 64. -/
def workerHash (hash_size : Int) (fl : FILE) : Nat :=
  if hash_size = 32 then hash32 fl else hash64 fl

/-- Entry after entry handed to slot after slot, until either runs out. -/
def assignAll (fs : FileSystem) (directory : String) (hash_size : Int) :
    List ReadDir → List Thread → List Thread
  | [], ts => ts
  | _ :: _, [] => []
  | r :: rs, t :: ts => assign fs directory hash_size r t :: assignAll fs directory hash_size rs ts

/-- A slot whose job on the stream `fl` of the entry returned by `r` is done. -/
def finished (hash_size : Int) (r : ReadDir) (fl : FILE) : Thread :=
  { command := .RESULT, hash_value := workerHash hash_size fl, hash_type := hash_size,
    working_file := some fl, file_name := some r.dent.d_name, lock := true }

/-- The line printed from slot `p.1` for the entry of `p.2`, when `content`
gives the stream opened for each entry and `buffer` is the buffer at the time
of the `printf`. -/
def expectedLine (directory : String) (hash_size : Int) (content : ReadDir → FILE)
    (buffer : NameBuffer) (p : Nat × ReadDir) : Line :=
  ⟨p.1, hash_size, workerHash hash_size (content p.2), directory,
    some (buffer p.2.dent.d_name)⟩

/-- The batch run on the entries `c` with the buffer `buffer` at print time:
slot `j` gets the `j`-th entry and the lines come out in slot order. -/
def expectedBatch (directory : String) (hash_size : Int) (content : ReadDir → FILE)
    (buffer : NameBuffer) (c : List ReadDir) : Batch :=
  ⟨(c.map ReadDir.dent).enum, c.enum.map (expectedLine directory hash_size content buffer)⟩

/-! ## The digest functions against FNV-1a -/

theorem toUInt64_byte (b : Byte) : toUInt64 (b.val : Int) = b.val := by
  have h := b.isLt
  unfold toUInt64
  have h2 : ((b.val : Int)) % (2 ^ 64 : Int) = (b.val : Int) :=
    Int.emod_eq_of_lt (by omega) (by omega)
  rw [h2]
  exact Int.toNat_natCast _

theorem toUInt32_byte (b : Byte) : toUInt32 (b.val : Int) = b.val := by
  have h := b.isLt
  unfold toUInt32
  have h2 : ((b.val : Int)) % (2 ^ 32 : Int) = (b.val : Int) :=
    Int.emod_eq_of_lt (by omega) (by omega)
  rw [h2]
  exact Int.toNat_natCast _

theorem toChar_ascii (b : Byte) (h : b.val < 128) : toChar (b.val : Int) = (b.val : Int) := by
  unfold toChar
  have h2 : ((b.val : Int)) % 256 = (b.val : Int) :=
    Int.emod_eq_of_lt (by omega) (by omega)
  simp only [h2]
  rw [if_neg (by omega)]

theorem hash64Loop_eq_foldl (fl : FILE) (digest : Nat) :
    hash64Loop fl digest =
      fl.foldl (fun acc b => ((acc ^^^ b.val) * 1099511628211) % 2 ^ 64) digest := by
  induction fl generalizing digest with
  | nil => rfl
  | cons b fl ih =>
    have hne : ((b.val : Int)) ≠ EOF := by unfold EOF; omega
    simp only [hash64Loop, List.foldl_cons]
    rw [if_pos hne, toUInt64_byte, ih]

theorem hash32Loop_eq_foldl_of_ascii (fl : FILE) (digest : Nat)
    (h : ∀ b ∈ fl, b.val < 128) :
    hash32Loop fl digest =
      fl.foldl (fun acc b => ((acc ^^^ b.val) * 16777619) % 2 ^ 32) digest := by
  induction fl generalizing digest with
  | nil => rfl
  | cons b fl ih =>
    have hb : b.val < 128 := h b (List.mem_cons_self _ _)
    have hne : toChar (b.val : Int) ≠ EOF := by
      rw [toChar_ascii b hb]; unfold EOF; omega
    simp only [hash32Loop, List.foldl_cons]
    rw [if_pos hne, toChar_ascii b hb, toUInt32_byte,
      ih _ (fun c hc => h c (List.mem_cons_of_mem _ hc))]

/-- On a stream of 7-bit bytes `hash32` is FNV-1a. -/
theorem hash32_eq_fnv1a32_of_ascii (fl : FILE) (h : ∀ b ∈ fl, b.val < 128) :
    hash32 fl = fnv1a32 fl :=
  hash32Loop_eq_foldl_of_ascii fl _ h

/-- The bytes of `"abc"` hash to `0x1A47E90B`, the empty stream to the offset basis. -/
theorem hash32_abc : hash32 [97, 98, 99] = 0x1A47E90B ∧ hash32 [] = 2166136261 := by
  decide

/-- C2: for every byte sequence, `hash64` returns its 64-bit FNV-1a digest:
starting from 14695981039346656037, each byte in order is XOR-ed into the
accumulator, which is then multiplied by 1099511628211 modulo 2^64. -/
theorem hash64_eq_fnv1a64 (fl : FILE) : hash64 fl = fnv1a64 fl :=
  hash64Loop_eq_foldl fl _

/-- C1 (failing inputs): on the one-byte stream `0xFF`, `hash32` stops as if
the stream were empty and returns the offset basis, and on the one-byte stream
`0x80` it XORs the sign-extended byte; neither value is the FNV-1a digest. -/
theorem hash32_high_byte :
    hash32 [255] = 2166136261 ∧ fnv1a32 [255] = 2047574606 ∧
    hash32 [128] = 83079839 ∧ fnv1a32 [128] = 2232128415 ∧
    hash32 [255, 97] = hash32 [] := by
  decide

/-! ## Index lemmas for the worker array -/

theorem modifyAt_length (f : Thread → Thread) (ws : List Thread) (i : Nat) :
    (modifyAt f ws i).length = ws.length := by
  induction ws generalizing i with
  | nil => rfl
  | cons t ts ih =>
    cases i with
    | zero => rfl
    | succ i => simp [modifyAt, ih]

theorem modifyAt_append (f : Thread → Thread) (pre : List Thread) (t : Thread)
    (post : List Thread) :
    modifyAt f (pre ++ t :: post) pre.length = pre ++ f t :: post := by
  induction pre with
  | nil => rfl
  | cons p pre ih => simp [modifyAt, ih]

theorem getElem?_append_mid (pre : List Thread) (t : Thread) (post : List Thread) :
    (pre ++ t :: post)[pre.length]? = some t := by
  induction pre with
  | nil => simp
  | cons p pre ih => simpa using ih

theorem set_append_mid (pre : List Thread) (t t1 : Thread) (post : List Thread) :
    (pre ++ t :: post).set pre.length t1 = pre ++ t1 :: post := by
  induction pre with
  | nil => rfl
  | cons p pre ih => simp

/-! ## `thread_pool_init` -/

theorem initLoop_append (pre mid post : List Thread) :
    initLoop pre.length mid.length (pre ++ mid ++ post) =
      pre ++ mid.map (fun t => { t with lock := true }) ++ post := by
  induction mid generalizing pre with
  | nil => simp [initLoop]
  | cons t mid ih =>
    have h := ih (pre ++ [{ t with lock := true }])
    simp only [List.length_append, List.length_singleton, List.append_assoc,
      List.singleton_append] at h
    simp only [List.length_cons, initLoop, List.append_assoc, List.cons_append,
      modifyAt_append, List.map_cons]
    exact h

theorem initLoop_replicate (n : Nat) :
    initLoop 0 n (List.replicate n callocThread) =
      List.replicate n { callocThread with lock := true } := by
  have h := initLoop_append [] (List.replicate n callocThread) []
  simpa using h

theorem thread_pool_init_eq (num_threads : Int) (h1 : 1 ≤ num_threads)
    (h32 : num_threads ≤ 32) :
    thread_pool_init num_threads =
      some { workers := List.replicate num_threads.toNat { callocThread with lock := true },
             num_threads := num_threads } := by
  unfold thread_pool_init
  rw [if_neg (by omega), initLoop_replicate]

/-- C3: `thread_pool_init` returns `NULL` exactly when `num_threads < 1` or
`num_threads > 32`; for `num_threads` in `[1, 32]` it returns a pool whose
`num_threads` field is the argument and which has exactly `num_threads`
workers. -/
theorem thread_pool_init_range (num_threads : Int) :
    (thread_pool_init num_threads = none ↔ (num_threads < 1 ∨ num_threads > 32)) ∧
    ((1 ≤ num_threads ∧ num_threads ≤ 32) →
      ∃ TP, thread_pool_init num_threads = some TP ∧ TP.num_threads = num_threads ∧
        (TP.workers.length : Int) = num_threads) := by
  constructor
  · unfold thread_pool_init
    by_cases h : num_threads < 1 ∨ num_threads > 32
    · simp [h]
    · simp [h]
  · rintro ⟨h1, h32⟩
    refine ⟨_, thread_pool_init_eq num_threads h1 h32, rfl, ?_⟩
    simp only [List.length_replicate]
    omega

/-- Instance of the range check: 0 and 33 are refused, 4 gives four workers. -/
theorem thread_pool_init_range_witness :
    thread_pool_init 0 = none ∧ thread_pool_init 33 = none ∧
    ∃ TP, thread_pool_init 4 = some TP ∧ TP.num_threads = 4 ∧
      (TP.workers.length : Int) = 4 :=
  ⟨(thread_pool_init_range 0).1.mpr (Or.inl (by decide)),
   (thread_pool_init_range 33).1.mpr (Or.inr (by decide)),
   (thread_pool_init_range 4).2 ⟨by decide, by decide⟩⟩

/-- C9 (as stated, refuted): the worker of `thread_pool_init 1` holds the
command `WORK`. -/
theorem thread_pool_init_command_is_WORK :
    ∃ TP, thread_pool_init 1 = some TP ∧ ∃ w ∈ TP.workers, w.command = WorkCommand.WORK :=
  ⟨_, rfl, _, List.mem_singleton.mpr rfl, rfl⟩

/-- C9 (amended): for `num_threads` in `[1, 32]`, every worker of the pool
returned by `thread_pool_init` is zero-initialised, so its command is `WORK`
(the enumeration has no idle value), it has no job (`hash_type` 0,
`working_file` and `file_name` `NULL`, `hash_value` 0), and its mutex is held
by the caller, so the worker is blocked and cannot take a step. -/
theorem thread_pool_init_workers_blocked (num_threads : Int) (h1 : 1 ≤ num_threads)
    (h32 : num_threads ≤ 32) :
    ∃ TP, thread_pool_init num_threads = some TP ∧
      ∀ w ∈ TP.workers, w.command = WorkCommand.WORK ∧ w.lock = true ∧
        worker_step w = Step.blocked ∧ w.hash_type = 0 ∧ w.working_file = none ∧
        w.file_name = none ∧ w.hash_value = 0 := by
  refine ⟨_, thread_pool_init_eq num_threads h1 h32, ?_⟩
  intro w hw
  rw [List.eq_of_mem_replicate hw]
  exact ⟨rfl, rfl, rfl, rfl, rfl, rfl, rfl⟩

/-- Instance for a pool of four workers. -/
theorem thread_pool_init_workers_blocked_witness :
    ∃ TP, thread_pool_init 4 = some TP ∧
      ∀ w ∈ TP.workers, w.command = WorkCommand.WORK ∧ w.lock = true ∧
        worker_step w = Step.blocked ∧ w.hash_type = 0 ∧ w.working_file = none ∧
        w.file_name = none ∧ w.hash_value = 0 :=
  thread_pool_init_workers_blocked 4 (by decide) (by decide)

/-! ## `thread_pool_hash`: the width guard -/

/-- C5: with a `hash_size` other than 32 and 64, `thread_pool_hash` returns
`false`, prints nothing, and leaves the pool (every field of every worker, and
`num_threads`) as it was, whatever the directory. -/
theorem thread_pool_hash_bad_width (fuel : Nat) (fs : FileSystem) (TP : ThreadPool)
    (directory : String) (hash_size : Int) (h32 : hash_size ≠ 32) (h64 : hash_size ≠ 64) :
    thread_pool_hash fuel fs (some TP) directory hash_size = some ⟨false, [], some TP⟩ := by
  unfold thread_pool_hash
  rw [if_pos ⟨h32, h64⟩]

/-- Instance: width 16 on a pool of one worker. -/
theorem thread_pool_hash_bad_width_witness :
    thread_pool_hash 0 ⟨fun _ => none, fun _ => none⟩ (some ⟨[callocThread], 1⟩) "d" 16 =
      some ⟨false, [], some ⟨[callocThread], 1⟩⟩ :=
  thread_pool_hash_bad_width 0 _ _ "d" 16 (by decide) (by decide)

/-! ## `thread_pool_shutdown` -/

theorem worker_step_DIE (t : Thread) (hc : t.command = WorkCommand.DIE) (hl : t.lock = false) :
    worker_step t = Step.exited { t with lock := true } := by
  simp [worker_step, hc, hl]

theorem shutdownLoop_append (pre mid : List Thread) (post : List Thread) :
    shutdownLoop pre.length mid.length (pre ++ mid ++ post) =
      some (pre ++ mid.map (fun t => { t with command := WorkCommand.DIE, lock := true })
        ++ post) := by
  induction mid generalizing pre with
  | nil => simp [shutdownLoop]
  | cons t mid ih =>
    have h := ih (pre ++ [{ t with command := WorkCommand.DIE, lock := true }])
    simp only [List.length_append, List.length_singleton, List.append_assoc,
      List.singleton_append] at h
    simp only [List.length_cons, shutdownLoop, List.append_assoc, List.cons_append,
      getElem?_append_mid, set_append_mid, List.map_cons]
    rw [worker_step_DIE _ rfl rfl]
    exact h

/-- C6: `thread_pool_shutdown` on the `NULL` handle returns without touching
anything; on a pool with `num_threads` workers, whatever their commands, it
returns having stored `DIE` in every one of them (and nothing else but the
mutex state has changed); and a worker that finds `DIE` when it takes its mutex
leaves its loop with `hash_value` and every other field of the slot unchanged. -/
theorem thread_pool_shutdown_all_DIE :
    thread_pool_shutdown none = some none ∧
    (∀ TP : ThreadPool, (TP.workers.length : Int) = TP.num_threads →
      ∃ ws, thread_pool_shutdown (some TP) = some (some ⟨ws, TP.num_threads⟩) ∧
        ws = TP.workers.map (fun t => { t with command := WorkCommand.DIE, lock := true }) ∧
        ws.length = TP.workers.length ∧ ∀ w ∈ ws, w.command = WorkCommand.DIE) ∧
    (∀ t : Thread, t.command = WorkCommand.DIE → t.lock = false →
      worker_step t = Step.exited { t with lock := true }) := by
  refine ⟨rfl, ?_, worker_step_DIE⟩
  intro TP hlen
  have hn : TP.num_threads.toNat = TP.workers.length := by omega
  have h := shutdownLoop_append [] TP.workers []
  simp only [List.length_nil, List.nil_append, List.append_nil] at h
  refine ⟨_, ?_, rfl, by simp, ?_⟩
  · simp only [thread_pool_shutdown, hn, h]
  · intro w hw
    obtain ⟨t, -, rfl⟩ := List.mem_map.mp hw
    rfl

/-- Instance: a pool of two workers, one holding `WORK`, one holding `RESULT`. -/
theorem thread_pool_shutdown_all_DIE_witness :
    thread_pool_shutdown (some ⟨[callocThread, { callocThread with command := .RESULT }], 2⟩) =
      some (some ⟨[{ callocThread with command := .DIE, lock := true },
                   { callocThread with command := .DIE, lock := true }], 2⟩) ∧
    worker_step { callocThread with command := .DIE } =
      Step.exited { callocThread with command := .DIE, lock := true } := by
  obtain ⟨ws, h, hws, -, -⟩ :=
    thread_pool_shutdown_all_DIE.2.1
      ⟨[callocThread, { callocThread with command := .RESULT }], 2⟩ rfl
  refine ⟨?_, thread_pool_shutdown_all_DIE.2.2 _ rfl rfl⟩
  rw [h, hws]
  rfl

/-! ## One job: assignment, then the worker's step -/

/-- A job whose file was opened: one iteration of the worker loop on the slot
the dispatcher has just filled ends with `RESULT` and the value of `hash32` or
`hash64` on the file, `hash_type`, `working_file` and `file_name` unchanged. -/
theorem worker_step_assign (fs : FileSystem) (directory : String) (hash_size : Int)
    (r : ReadDir) (t : Thread) (fl : FILE) (hsize : hash_size = 32 ∨ hash_size = 64)
    (hopen : fs.fopen (directory ++ "/" ++ r.buffer r.dent.d_name) = some fl) :
    worker_step (assign fs directory hash_size r t) =
      Step.looped (finished hash_size r fl) := by
  rcases hsize with h | h <;> subst h <;>
    simp [worker_step, assign, work32, work64, hopen, finished, workerHash]

theorem await_assign (fs : FileSystem) (directory : String) (hash_size : Int)
    (r : ReadDir) (t : Thread) (fl : FILE) (hsize : hash_size = 32 ∨ hash_size = 64)
    (hopen : fs.fopen (directory ++ "/" ++ r.buffer r.dent.d_name) = some fl) :
    await (assign fs directory hash_size r t) = some (finished hash_size r fl) := by
  simp [await, worker_step_assign fs directory hash_size r t fl hsize hopen, finished]

theorem emit_finished (directory : String) (hash_size : Int) (content : ReadDir → FILE)
    (buffer : NameBuffer) (i : Nat) (r : ReadDir) (hsize : hash_size = 32 ∨ hash_size = 64) :
    emit directory hash_size buffer i (finished hash_size r (content r)) =
      [expectedLine directory hash_size content buffer (i, r)] := by
  rcases hsize with h | h <;> subst h <;> simp [emit, finished, expectedLine]

/-- C7 (failing input): a regular entry whose `fopen` fails is still handed to
the slot with `WORK` and `hash_type` 32, and the worker's iteration on that
slot calls `hash32` on the `NULL` stream; the dispatcher's wait for `RESULT`
never ends. -/
theorem worker_step_after_failed_open :
    (assign ⟨fun _ => some ⟨fun _ => "", [⟨⟨0, DT_REG⟩, fun _ => "a"⟩]⟩, fun _ => none⟩
        "d" 32 ⟨⟨0, DT_REG⟩, fun _ => "a"⟩
        { callocThread with lock := true }).command = WorkCommand.WORK ∧
    (assign ⟨fun _ => some ⟨fun _ => "", [⟨⟨0, DT_REG⟩, fun _ => "a"⟩]⟩, fun _ => none⟩
        "d" 32 ⟨⟨0, DT_REG⟩, fun _ => "a"⟩
        { callocThread with lock := true }).hash_type = 32 ∧
    (assign ⟨fun _ => some ⟨fun _ => "", [⟨⟨0, DT_REG⟩, fun _ => "a"⟩]⟩, fun _ => none⟩
        "d" 32 ⟨⟨0, DT_REG⟩, fun _ => "a"⟩
        { callocThread with lock := true }).working_file = none ∧
    worker_step
      (assign ⟨fun _ => some ⟨fun _ => "", [⟨⟨0, DT_REG⟩, fun _ => "a"⟩]⟩, fun _ => none⟩
        "d" 32 ⟨⟨0, DT_REG⟩, fun _ => "a"⟩
        { callocThread with lock := true }) = Step.fault ∧
    await
      (assign ⟨fun _ => some ⟨fun _ => "", [⟨⟨0, DT_REG⟩, fun _ => "a"⟩]⟩, fun _ => none⟩
        "d" 32 ⟨⟨0, DT_REG⟩, fun _ => "a"⟩
        { callocThread with lock := true }) = none ∧
    thread_pool_hash 2
        ⟨fun _ => some ⟨fun _ => "", [⟨⟨0, DT_REG⟩, fun _ => "a"⟩]⟩, fun _ => none⟩
        (thread_pool_init 1) "d" 32 = none := by
  refine ⟨rfl, rfl, rfl, rfl, rfl, rfl⟩

/-- C10 (failing input): the slot holds `RESULT` from an earlier job (an empty
file, width 64, with a `file_name` pointer left from that job) and its mutex is
held; the directory has one regular entry, named `a` at address 0 of the
buffer, and its `fopen` fails.  The assign loop counts the entry, stores `WORK`
in the slot with a `NULL` `working_file` and the pointer to the name, and
releases the mutex. -/
theorem assignLoop_failed_open :
    assignLoop ⟨fun _ => some ⟨fun _ => "", [⟨⟨0, DT_REG⟩, fun _ => "a"⟩]⟩, fun _ => none⟩
        "d" 32 1 0 [⟨⟨0, DT_REG⟩, fun _ => "a"⟩] (fun _ => "")
        [{ command := .RESULT, hash_value := 14695981039346656037, hash_type := 64,
           working_file := some [], file_name := some 7, lock := true }] 0 =
      ⟨[{ command := .WORK, hash_value := 14695981039346656037, hash_type := 32,
          working_file := none, file_name := some 0, lock := false }],
        ⟨fun _ => "a", []⟩, 1, [(0, ⟨0, DT_REG⟩)]⟩ := by
  rfl

/-! ## The assign loop -/

theorem assignAll_nil_right (fs : FileSystem) (directory : String) (hash_size : Int)
    (rs : List ReadDir) : assignAll fs directory hash_size rs [] = [] := by
  cases rs <;> rfl

theorem regular_cons_reg (r : ReadDir) (pending : List ReadDir)
    (h : r.dent.d_type = DT_REG) : regular (r :: pending) = r :: regular pending := by
  simp [regular, h]

theorem regular_cons_other (r : ReadDir) (pending : List ReadDir)
    (h : ¬ r.dent.d_type = DT_REG) : regular (r :: pending) = regular pending := by
  simp [regular, h]

/-- The assign loop started at slot `pre.length`: the remaining slots `post`
receive the regular entries in order, `queued` grows by the number of slots
filled, and the stream is left just after the last entry consumed. -/
theorem assignLoop_spec (fs : FileSystem) (directory : String) (hash_size : Int)
    (num_threads : Int) (pending : List ReadDir) (buffer : NameBuffer)
    (pre post : List Thread) (queued : Nat)
    (hN : ((pre.length + post.length : Nat) : Int) = num_threads) :
    (assignLoop fs directory hash_size num_threads pre.length pending buffer (pre ++ post)
        queued).workers = pre ++ assignAll fs directory hash_size (regular pending) post ∧
    (assignLoop fs directory hash_size num_threads pre.length pending buffer (pre ++ post)
        queued).queued = queued + min post.length (regular pending).length ∧
    (assignLoop fs directory hash_size num_threads pre.length pending buffer (pre ++ post)
        queued).log =
      (((regular pending).take post.length).map ReadDir.dent).enumFrom pre.length ∧
    regular (assignLoop fs directory hash_size num_threads pre.length pending buffer
        (pre ++ post) queued).direct.pending = (regular pending).drop post.length ∧
    (assignLoop fs directory hash_size num_threads pre.length pending buffer (pre ++ post)
        queued).direct.pending.length + min post.length (regular pending).length
      ≤ pending.length := by
  induction pending generalizing buffer pre post queued with
  | nil =>
    cases post <;> simp [assignLoop, regular, assignAll]
  | cons r rest ih =>
    cases post with
    | nil =>
      have hlt : ¬ ((pre.length : Int) < num_threads) := by
        simp only [List.length_nil, Nat.add_zero] at hN
        omega
      simp [assignLoop, hlt, assignAll_nil_right]
    | cons t post =>
      have hlt : (pre.length : Int) < num_threads := by
        simp only [List.length_cons] at hN
        omega
      by_cases hreg : r.dent.d_type = DT_REG
      · have h := ih r.buffer (pre ++ [assign fs directory hash_size r t]) post (queued + 1)
          (by simp only [List.length_append, List.length_cons, List.length_nil] at hN ⊢
              omega)
        simp only [List.length_append, List.length_singleton, List.append_assoc,
          List.singleton_append] at h
        obtain ⟨h1, h2, h3, h4, h5⟩ := h
        simp only [assignLoop, if_pos hlt, if_pos hreg, modifyAt_append,
          regular_cons_reg r rest hreg, assignAll, List.length_cons, List.take_succ_cons,
          List.map_cons, List.enumFrom_cons, List.drop_succ_cons, h1, h2, h3, h4]
        refine ⟨trivial, ?_, trivial, trivial, ?_⟩ <;> omega
      · have h := ih r.buffer pre (t :: post) queued hN
        simp only [assignLoop, if_pos hlt, if_neg hreg, regular_cons_other r rest hreg]
        obtain ⟨h1, h2, h3, h4, h5⟩ := h
        refine ⟨h1, h2, h3, h4, ?_⟩
        simp only [List.length_cons] at h5 ⊢
        omega

/-! ## The collect loop -/

/-- The collect loop over slots just filled with the entries `rs`, all of them
opened: it prints their lines in slot order, the names as `buffer` holds them,
and keeps the slot count. -/
theorem collectLoop_spec (fs : FileSystem) (directory : String) (hash_size : Int)
    (content : ReadDir → FILE) (buffer : NameBuffer)
    (hsize : hash_size = 32 ∨ hash_size = 64)
    (rs : List ReadDir) (pre ts : List Thread)
    (hopen : ∀ r ∈ rs, fs.fopen (directory ++ "/" ++ r.buffer r.dent.d_name) =
      some (content r)) :
    ∃ ws, collectLoop directory hash_size buffer pre.length (min ts.length rs.length)
        (pre ++ assignAll fs directory hash_size rs ts) =
      some (((rs.take ts.length).enumFrom pre.length).map
        (expectedLine directory hash_size content buffer), ws) ∧
      ws.length = pre.length + ts.length := by
  induction rs generalizing pre ts with
  | nil =>
    exact ⟨pre ++ ts, by simp [collectLoop, assignAll], by simp⟩
  | cons r rs ih =>
    cases ts with
    | nil => exact ⟨pre, by simp [collectLoop, assignAll], by simp⟩
    | cons t ts =>
      have he := hopen r (List.mem_cons_self _ _)
      obtain ⟨ws, h, hl⟩ := ih (pre ++ [finished hash_size r (content r)]) ts
        (fun x hx => hopen x (List.mem_cons_of_mem _ hx))
      simp only [List.length_append, List.length_singleton, List.append_assoc,
        List.singleton_append] at h hl
      refine ⟨ws, ?_, by simp only [List.length_cons]; omega⟩
      simp only [List.length_cons, Nat.succ_min_succ, collectLoop, assignAll,
        getElem?_append_mid, await_assign fs directory hash_size r t (content r) hsize he,
        set_append_mid, h, emit_finished directory hash_size content buffer _ r hsize,
        List.take_succ_cons, List.enumFrom_cons, List.map_cons, List.singleton_append]

/-! ## The dispatch loop -/

/-- With at least one slot, every regular entry opened and more fuel than
`readdir` calls to come, the dispatch loop returns; the executions of its body
are the batches run on consecutive groups of the regular entries, none larger
than the pool, each with the buffer as it stood when its lines were printed. -/
theorem dispatchLoop_spec (fs : FileSystem) (directory : String) (hash_size : Int)
    (content : ReadDir → FILE) (hsize : hash_size = 32 ∨ hash_size = 64)
    (num_threads : Int) (hN1 : 1 ≤ num_threads) (fuel : Nat) (direct : DIR)
    (ws : List Thread) (hlen : (ws.length : Int) = num_threads)
    (hopen : ∀ r ∈ regular direct.pending,
      fs.fopen (directory ++ "/" ++ r.buffer r.dent.d_name) = some (content r))
    (hfuel : direct.pending.length < fuel) :
    ∃ (chunks : List (NameBuffer × List ReadDir)) (ws1 : List Thread),
      dispatchLoop fs directory hash_size num_threads fuel direct ws =
        some (chunks.map (fun cb => expectedBatch directory hash_size content cb.1 cb.2),
          ws1) ∧
      ws1.length = ws.length ∧ (chunks.map Prod.snd).flatten = regular direct.pending ∧
      ∀ cb ∈ chunks, cb.2.length ≤ ws.length := by
  induction fuel generalizing direct ws with
  | zero => omega
  | succ fuel ih =>
    obtain ⟨h1, h2, h3, h4, h5⟩ :=
      assignLoop_spec fs directory hash_size num_threads direct.pending direct.buffer [] ws 0
        (by simpa using hlen)
    simp only [List.length_nil, List.nil_append, Nat.zero_add] at h1 h2 h3 h4 h5
    obtain ⟨ws1, hc, hl1⟩ :=
      collectLoop_spec fs directory hash_size content
        (assignLoop fs directory hash_size num_threads 0 direct.pending direct.buffer ws
          0).direct.buffer hsize (regular direct.pending) [] ws hopen
    simp only [List.length_nil, List.nil_append, Nat.zero_add] at hc hl1
    simp only [dispatchLoop, h1, h2, hc]
    by_cases hq : ws.length ≤ (regular direct.pending).length
    · have hmin : min ws.length (regular direct.pending).length = ws.length :=
        Nat.min_eq_left hq
      have hdir : (assignLoop fs directory hash_size num_threads 0 direct.pending
          direct.buffer ws 0).direct.pending.length < fuel := by omega
      obtain ⟨chunks, ws2, hd, hl2, hj, hcl⟩ :=
        ih (assignLoop fs directory hash_size num_threads 0 direct.pending direct.buffer ws
            0).direct ws1 (by omega) (by
            intro e he
            rw [h4] at he
            exact hopen e (List.mem_of_mem_drop he)) hdir
      refine ⟨((assignLoop fs directory hash_size num_threads 0 direct.pending direct.buffer
          ws 0).direct.buffer, (regular direct.pending).take ws.length) :: chunks, ws2, ?_,
        by omega, ?_, ?_⟩
      · rw [if_neg (by rw [hmin]; simpa using hlen), hd]
        simp [expectedBatch, h3, List.enum_eq_enumFrom]
      · simp [hj, h4]
      · intro c hc'
        rcases List.mem_cons.mp hc' with rfl | hc'
        · simp
        · have := hcl c hc'
          omega
    · have hlt : (regular direct.pending).length < ws.length := by omega
      have hmin : min ws.length (regular direct.pending).length =
          (regular direct.pending).length := Nat.min_eq_right (by omega)
      have htake : (regular direct.pending).take ws.length = regular direct.pending :=
        List.take_of_length_le (by omega)
      refine ⟨[((assignLoop fs directory hash_size num_threads 0 direct.pending
          direct.buffer ws 0).direct.buffer, regular direct.pending)], ws1, ?_, hl1,
        by simp, ?_⟩
      · rw [if_pos (by rw [hmin]; omega)]
        simp [expectedBatch, h3, htake, List.enum_eq_enumFrom]
      · intro c hc'
        rw [List.mem_singleton.mp hc']
        simp only
        omega

theorem expectedBatch_assigned_flatten (directory : String) (hash_size : Int)
    (content : ReadDir → FILE) (chunks : List (NameBuffer × List ReadDir)) :
    (((chunks.map (fun cb => expectedBatch directory hash_size content cb.1 cb.2)).map
      Batch.assigned).flatten).map Prod.snd =
      ((chunks.map Prod.snd).flatten).map ReadDir.dent := by
  induction chunks with
  | nil => rfl
  | cons c chunks ih =>
    simp only [List.map_cons, List.flatten_cons, List.map_append, ih]
    simp [expectedBatch, List.enum_map_snd]

theorem expectedBatch_emitted_flatten (directory : String) (hash_size : Int)
    (content : ReadDir → FILE) (chunks : List (NameBuffer × List ReadDir)) :
    (((chunks.map (fun cb => expectedBatch directory hash_size content cb.1 cb.2)).map
      Batch.emitted).flatten).map (fun l => (l.hash_value, l.hash_size, l.directory)) =
      ((chunks.map Prod.snd).flatten).map
        (fun r => (workerHash hash_size (content r), hash_size, directory)) := by
  induction chunks with
  | nil => rfl
  | cons c chunks ih =>
    simp only [List.map_cons, List.flatten_cons, List.map_append, ih]
    congr 1
    simp only [expectedBatch, List.map_map]
    conv_rhs => rw [← List.enum_map_snd c.2, List.map_map]
    rfl

/-- What holds of the dispatch for a pool with `N ≥ 1` slots, a supported width
and a directory whose regular entries can all be opened: `thread_pool_hash`
returns `true` (given more fuel than there are entries); the entries handed to
slots are exactly the regular ones, in directory order; the lines printed,
batch after batch, carry in that order the values `hash32`/`hash64` give on
the files of those entries; in every batch the slots filled are
`0, 1, ...`, at most `N`, and the lines are printed in that slot order.  The
name on a line is whatever the buffer holds at the slot's pointer when the
line is printed. -/
theorem thread_pool_hash_dispatch (fs : FileSystem) (TP : ThreadPool)
    (directory : String) (hash_size : Int) (direct : DIR)
    (content : ReadDir → FILE) (fuel : Nat)
    (hN1 : 1 ≤ TP.num_threads)
    (hlen : (TP.workers.length : Int) = TP.num_threads)
    (hsize : hash_size = 32 ∨ hash_size = 64)
    (hdir : fs.opendir directory = some direct)
    (hopen : ∀ r ∈ direct.pending, r.dent.d_type = DT_REG →
      fs.fopen (directory ++ "/" ++ r.buffer r.dent.d_name) = some (content r))
    (hfuel : direct.pending.length < fuel) :
    ∃ r, thread_pool_hash fuel fs (some TP) directory hash_size = some r ∧ r.ret = true ∧
      ((r.batches.map Batch.emitted).flatten).map
          (fun l => (l.hash_value, l.hash_size, l.directory)) =
        (regular direct.pending).map
          (fun x => (workerHash hash_size (content x), hash_size, directory)) ∧
      ((r.batches.map Batch.assigned).flatten).map Prod.snd =
        (regular direct.pending).map ReadDir.dent ∧
      ∀ b ∈ r.batches,
        b.assigned.map Prod.fst = List.range b.assigned.length ∧
        b.assigned.length ≤ TP.workers.length ∧
        b.emitted.length = b.assigned.length ∧
        b.emitted.map Line.slot = List.range b.assigned.length := by
  have hopen1 : ∀ x ∈ regular direct.pending,
      fs.fopen (directory ++ "/" ++ x.buffer x.dent.d_name) = some (content x) := by
    intro e he
    have hm := List.mem_filter.mp he
    exact hopen e hm.1 (by simpa using hm.2)
  obtain ⟨chunks, ws1, hd, -, hj, hcl⟩ :=
    dispatchLoop_spec fs directory hash_size content hsize TP.num_threads hN1 fuel direct
      TP.workers hlen hopen1 hfuel
  have h32 : ¬ (hash_size ≠ 32 ∧ hash_size ≠ 64) := by
    rcases hsize with h | h <;> simp [h]
  refine ⟨⟨true, chunks.map (fun cb => expectedBatch directory hash_size content cb.1 cb.2),
    some { TP with workers := ws1 }⟩, ?_, rfl, ?_, ?_, ?_⟩
  · simp only [thread_pool_hash, if_neg h32, hdir, hd]
  · rw [expectedBatch_emitted_flatten, hj]
  · rw [expectedBatch_assigned_flatten, hj]
  · intro b hb
    obtain ⟨c, hc, rfl⟩ := List.mem_map.mp hb
    refine ⟨by simp [expectedBatch], ?_, by simp [expectedBatch], ?_⟩
    · simpa [expectedBatch] using hcl c hc
    · simp only [expectedBatch, List.map_map, List.length_map, List.enum_length]
      rw [← List.enum_map_fst]
      rfl

/-- C4 (failing input): a pool of one worker, width 32, and a directory whose
one regular file `a` holds the single byte `0xFF`.  The call returns after
printing one line for `a`, from slot 0, and the value on that line is
2166136261, whereas the FNV-1a digest of the file is 2047574606. -/
theorem thread_pool_hash_high_byte_file :
    (thread_pool_hash 2
        ⟨fun _ => some ⟨fun _ => "", [⟨⟨0, DT_REG⟩, fun _ => "a"⟩]⟩, fun _ => some [255]⟩
        (thread_pool_init 1) "d" 32).map (fun r => r.batches) =
      some [⟨[(0, ⟨0, DT_REG⟩)], [⟨0, 32, 2166136261, "d", some "a"⟩]⟩, ⟨[], []⟩] ∧
    fnv1a32 [255] = 2047574606 := by
  refine ⟨rfl, by decide⟩

/-- The name on a line is read through the pointer stored at assignment.  Pool
of two workers, width 64, two regular files; the second `readdir` call rewrites
the buffer, so that address 0, where `a` stood, now holds `b`.  The files
opened are `d/a` (one byte `a`) and `d/b` (one byte `b`), the values printed
are theirs in that order, and both lines carry the name `b`. -/
theorem thread_pool_hash_stale_name :
    (thread_pool_hash 3
        ⟨fun _ => some ⟨fun _ => "",
            [⟨⟨0, DT_REG⟩, fun _ => "a"⟩, ⟨⟨0, DT_REG⟩, fun _ => "b"⟩]⟩,
          fun path => if path = "d/a" then some [97] else some [98]⟩
        (thread_pool_init 2) "d" 64).map (fun r => r.batches) =
      some [⟨[(0, ⟨0, DT_REG⟩), (1, ⟨0, DT_REG⟩)],
             [⟨0, 64, hash64 [97], "d", some "b"⟩, ⟨1, 64, hash64 [98], "d", some "b"⟩]⟩,
            ⟨[], []⟩] := by
  decide

/-! ## A directory with exactly as many regular files as slots -/

end TPool
